import Mathlib

/-!
Shallow embedding of the `tdo` task-list manager (src/main.rs) and proofs of
the specification claims about it.  Strings are modelled as `List Char`; the
interactive fuzzy-selector calls are abstracted by passing the selector's
abort flag and query/selection result as explicit arguments.
-/

namespace Tdo

/-- Rust `char::is_whitespace`: the Unicode `White_Space` property. -/
def isRustWhitespace (c : Char) : Bool :=
  let n := c.toNat
  (9 ≤ n && n ≤ 13) || n == 32 || n == 0x85 || n == 0xa0 || n == 0x1680 ||
    (0x2000 ≤ n && n ≤ 0x200a) || n == 0x2028 || n == 0x2029 || n == 0x202f ||
    n == 0x205f || n == 0x3000

/-- Left half of Rust `str::trim`: drop leading whitespace. -/
def trimLeft (l : List Char) : List Char := l.dropWhile isRustWhitespace

/-- Right half of Rust `str::trim`: drop trailing whitespace. -/
def trimRight (l : List Char) : List Char :=
  (l.reverse.dropWhile isRustWhitespace).reverse

/-- Rust `str::trim`: drop leading and trailing whitespace. -/
def rustTrim (l : List Char) : List Char := trimRight (trimLeft l)

/-- Rust `str::starts_with` for a literal pattern (first argument). -/
def startsWith : List Char → List Char → Bool
  | [], _ => true
  | _ :: _, [] => false
  | p :: ps, c :: cs => p == c && startsWith ps cs

/-- Rust `str::replacen(pat, "", 1)` for a nonempty literal pattern: remove
the first occurrence of the pattern, if any. -/
def removeFirstOcc (pat : List Char) : List Char → List Char
  | [] => []
  | c :: cs =>
    if startsWith pat (c :: cs) then (c :: cs).drop pat.length
    else c :: removeFirstOcc pat cs

/-- Rust `str::contains` for a literal pattern. -/
def containsSub (pat : List Char) : List Char → Bool
  | [] => startsWith pat []
  | c :: cs => startsWith pat (c :: cs) || containsSub pat cs

/-- The `Status` enum of the program. -/
inductive Status where
  | Todo
  | Done
  | Other
deriving DecidableEq

/-- The `Task` struct of the program: id, text, status. -/
structure Task where
  id : Nat
  text : List Char
  status : Status
deriving DecidableEq

/-- Rust `PartialEq for Status`: same constructor. -/
def statusEq : Status → Status → Bool
  | .Todo, .Todo => true
  | .Done, .Done => true
  | .Other, .Other => true
  | _, _ => false

/-- Rust `Ord for Status`, arm for arm as written in the source, including
the wildcard arms that also match a status compared with itself. -/
def statusCmp : Status → Status → Ordering
  | .Todo, _ => .lt
  | .Done, .Other => .lt
  | .Done, .Done => .eq
  | .Done, .Todo => .gt
  | .Other, _ => .gt

/-- Rank realising the order `Todo < Done < Other` named by the spec. -/
def statusRank : Status → Nat
  | .Todo => 0
  | .Done => 1
  | .Other => 2

/-- Rust `Ord for Task`: ids are compared when the statuses are equal,
otherwise the statuses are compared. -/
def taskCmp (a b : Task) : Ordering :=
  if statusEq a.status b.status then compare a.id b.id
  else statusCmp a.status b.status

/-- The `a <= b` test induced by `Ord for Task`, as used by `Vec::sort`. -/
def taskLe (a b : Task) : Bool := !(taskCmp a b == Ordering.gt)

/-- The local variable `text` of `Task::parse`: strip one leading `-` via
`replacen` when the line starts with `-`, then trim. -/
def parseText (line : List Char) : List Char :=
  if startsWith "-".data line then rustTrim (removeFirstOcc "-".data line)
  else rustTrim line

/-- Rust `Task::parse`. -/
def Task.parse (id : Nat) (line : List Char) : Task :=
  if startsWith "[ ]".data (parseText line) then
    { id := id, text := rustTrim (removeFirstOcc "[ ]".data (parseText line)),
      status := .Todo }
  else if startsWith "[x]".data (parseText line) then
    { id := id, text := rustTrim (removeFirstOcc "[x]".data (parseText line)),
      status := .Done }
  else
    { id := id, text := parseText line, status := .Other }

/-- Modelled from the spec wording of the parse contract (for the refinement
claim C1): strip exactly one leading `-` and trim; then strip a single
leading `[ ]` or `[x]` marker and trim, fixing the status. -/
def specParseText (line : List Char) : List Char :=
  if startsWith "-".data line then rustTrim (line.drop 1) else rustTrim line

/-- Modelled from the spec wording of the parse contract (companion of
`specParseText`), to be compared with `Task.parse`. -/
def specParse (id : Nat) (line : List Char) : Task :=
  if startsWith "[ ]".data (specParseText line) then
    { id := id, text := rustTrim ((specParseText line).drop 3), status := .Todo }
  else if startsWith "[x]".data (specParseText line) then
    { id := id, text := rustTrim ((specParseText line).drop 3), status := .Done }
  else
    { id := id, text := specParseText line, status := .Other }

/-- Rust `Task::to_file`. -/
def Task.to_file (t : Task) : List Char :=
  match t.status with
  | .Todo => "- [ ] ".data ++ t.text
  | .Done => "- [x] ".data ++ t.text
  | .Other => "- ".data ++ t.text

/-- Rust `Task::from_user`, with the selector interaction abstracted: the
selector's abort flag and final query string are passed in. -/
def Task.from_user (len : Nat) (is_abort : Bool) (query : List Char) :
    Option Task :=
  if !is_abort && !query.isEmpty then
    some { id := len + 2, text := query, status := .Todo }
  else none

/-- Decimal digits of a usize, least significant first (the repeated
division performed by Rust `Display for usize`). -/
def natDigitsRev : Nat → List Char
  | 0 => []
  | n + 1 => Nat.digitChar ((n + 1) % 10) :: natDigitsRev ((n + 1) / 10)
decreasing_by exact Nat.div_lt_self (Nat.succ_pos n) (by decide)

/-- Decimal representation of a usize, as printed by Rust `Display`. -/
def natDigits (n : Nat) : List Char :=
  if n = 0 then ['0'] else (natDigitsRev n).reverse

/-- Rust `format!` padding `{:>5}`: right-align in a 5-column field. -/
def padTo5 (s : List Char) : List Char :=
  List.replicate (5 - s.length) ' ' ++ s

/-- ANSI colour wrapping as produced by the `colored` crate with the colour
override switched on. -/
def ansiWrap (code : List Char) (s : List Char) : List Char :=
  ("\x1b[".data ++ code ++ "m".data) ++ s ++ "\x1b[0m".data

/-- Rust `Display for Task`: right-aligned 5-column id, pipe separator, a
coloured glyph for Todo/Done, then the text. -/
def Task.display (t : Task) : List Char :=
  match t.status with
  | .Todo =>
    padTo5 (natDigits t.id) ++ " | ".data ++ ansiWrap "31".data "✕".data ++
      " ".data ++ t.text
  | .Done =>
    padTo5 (natDigits t.id) ++ " | ".data ++ ansiWrap "32".data "✓".data ++
      " ".data ++ t.text
  | .Other =>
    padTo5 (natDigits t.id) ++ " | ".data ++ t.text

/-- Rust `str::parse::<usize>`: an optional leading `+`, then one or more
ASCII digits. -/
def parseUsize (l : List Char) : Option Nat :=
  let digits :=
    match l with
    | '+' :: rest => rest
    | _ => l
  if digits.isEmpty || !digits.all Char.isDigit then none
  else some (digits.foldl (fun a c => a * 10 + (c.toNat - 48)) 0)

/-- First maximal whitespace-free run of a string, as produced by Rust
`split_whitespace().next()`. -/
def nextToken (l : List Char) : Option (List Char) :=
  let rest := l.dropWhile isRustWhitespace
  if rest.isEmpty then none
  else some (rest.takeWhile (fun c => !isRustWhitespace c))

/-- Rust `Task::parse_id`: first whitespace-delimited token of the trimmed
line, parsed as a usize. -/
def Task.parse_id (line : List Char) : Option Nat :=
  match nextToken (rustTrim line) with
  | some tok => parseUsize tok
  | none => none

/-- Rust `Tasks::new` on the lines indexed from `k`: line at 0-based
enumeration index `i` becomes `Task::parse (i + 1) line`. -/
def Tasks.newFrom (k : Nat) : List (List Char) → List Task
  | [] => []
  | l :: ls => Task.parse (k + 1) l :: Tasks.newFrom (k + 1) ls

/-- Rust `Tasks::new`: enumerate the lines from 0 and parse each. -/
def Tasks.new (lines : List (List Char)) : List Task :=
  Tasks.newFrom 0 lines

/-- Rust `Tasks::sort`: `Vec::sort`, a stable sort by `Ord for Task`. -/
def Tasks.sort (ts : List Task) : List Task := ts.mergeSort taskLe

/-- Rust `Tasks::index_of`: index of the first task whose id matches. -/
def Tasks.index_of : List Task → Nat → Option Nat
  | [], _ => none
  | t :: ts, i =>
    if t.id = i then some 0 else (Tasks.index_of ts i).map (· + 1)

/-- Rust `Tasks::delete_id`: remove and return the first task with the given
id (`Vec::remove` at the found index); a no-op returning nothing when the id
is absent. -/
def Tasks.delete_id (ts : List Task) (i : Nat) : Option Task × List Task :=
  match Tasks.index_of ts i with
  | some k => (ts[k]?, ts.eraseIdx k)
  | none => (none, ts)

/-- Rust `Tasks::set_text` restricted to its collection effect: the first
task whose id matches gets the selector query as its new text, provided the
selector was not aborted and the query is nonempty. -/
def Tasks.set_text : List Task → Nat → Bool → List Char → List Task
  | [], _, _, _ => []
  | t :: ts, i, ab, q =>
    if t.id = i then
      (if !ab && !q.isEmpty then { t with text := q } else t) :: ts
    else t :: Tasks.set_text ts i ab q

/-- Rust `user_add`: repeatedly build a task from user free-text entry and
append it; the loop stops at the first aborted or empty entry.  The selector
interactions are given as a list of (abort flag, query) pairs. -/
def user_add_loop (ts : List Task) : List (Bool × List Char) → List Task
  | [] => ts
  | e :: rest =>
    match Task.from_user ts.length e.1 e.2 with
    | some t => user_add_loop (ts ++ [t]) rest
    | none => ts

/-- Rust `get_path`, with the filesystem queries abstracted: `localIsFile`
says whether `./.todo.md` is a file in the current directory `cwd`,
`defaultFile` is the optional `TDO_DEFAULT_FILE` setting, and
`defaultIsFile` says whether that configured path is a file. -/
def get_path (cwd : List Char) (localIsFile : Bool)
    (defaultFile : Option (List Char)) (defaultIsFile : Bool) :
    Except (List Char) (List Char) :=
  if localIsFile then .ok (cwd ++ "/.todo.md".data)
  else
    match defaultFile with
    | some d =>
      if defaultIsFile then .ok d
      else .error "path does not lead to a valid file".data
    | none =>
      .error "file .todo.md not found in current directory and no default is set".data

/-! ### Helper lemmas on the string operations -/

theorem startsWith_nil_iff (pat : List Char) : startsWith pat [] = true ↔ pat = [] := by
  cases pat <;> simp [startsWith]

theorem removeFirstOcc_of_startsWith (pat l : List Char)
    (h : startsWith pat l = true) : removeFirstOcc pat l = l.drop pat.length := by
  cases l with
  | nil =>
    have hp : pat = [] := (startsWith_nil_iff pat).mp h
    subst hp; rfl
  | cons c cs => simp [removeFirstOcc, h]

theorem dropWhile_dropWhile (p : Char → Bool) (l : List Char) :
    List.dropWhile p (List.dropWhile p l) = List.dropWhile p l := by
  induction l with
  | nil => rfl
  | cons c cs ih =>
    by_cases h : p c = true
    · simp [List.dropWhile_cons, h, ih]
    · simp [List.dropWhile_cons, h]

theorem trimLeft_cons_of_false {c : Char} (l : List Char)
    (h : isRustWhitespace c = false) : trimLeft (c :: l) = c :: l := by
  simp [trimLeft, List.dropWhile_cons, h]

theorem trimLeft_cons_of_true {c : Char} (l : List Char)
    (h : isRustWhitespace c = true) : trimLeft (c :: l) = trimLeft l := by
  simp [trimLeft, List.dropWhile_cons, h]

theorem trimLeft_length_le (l : List Char) : (trimLeft l).length ≤ l.length :=
  (List.dropWhile_suffix isRustWhitespace).length_le

theorem trimRight_length_le (l : List Char) : (trimRight l).length ≤ l.length := by
  have h := (List.dropWhile_suffix (l := l.reverse) isRustWhitespace).length_le
  simpa [trimRight] using h

theorem trimLeft_eq_self_of_rustTrim {l : List Char} (h : rustTrim l = l) :
    trimLeft l = l := by
  have hsuf : trimLeft l <:+ l := List.dropWhile_suffix isRustWhitespace
  have hlen : l.length ≤ (trimLeft l).length := by
    calc l.length = (rustTrim l).length := by rw [h]
      _ ≤ (trimLeft l).length := trimRight_length_le (trimLeft l)
  exact hsuf.eq_of_length (Nat.le_antisymm (trimLeft_length_le l) hlen)

theorem trimRight_eq_self_of_rustTrim {l : List Char} (h : rustTrim l = l) :
    trimRight l = l := by
  have h1 := trimLeft_eq_self_of_rustTrim h
  rw [rustTrim, h1] at h
  exact h

theorem trimRight_ne_nil {l : List Char}
    (h : ∃ c ∈ l, isRustWhitespace c = false) : trimRight l ≠ [] := by
  intro hnil
  rw [trimRight, List.reverse_eq_nil_iff, List.dropWhile_eq_nil_iff] at hnil
  obtain ⟨c, hc, hf⟩ := h
  rw [hnil c (List.mem_reverse.mpr hc)] at hf
  cases hf

theorem trimRight_append (a l : List Char) (h : trimRight l ≠ []) :
    trimRight (a ++ l) = a ++ trimRight l := by
  have hrev : l.reverse.dropWhile isRustWhitespace ≠ [] := by
    intro h0
    exact h (by rw [trimRight, h0]; rfl)
  rw [trimRight, List.reverse_append, List.dropWhile_append,
    if_neg (by simpa [List.isEmpty_iff] using hrev), List.reverse_append,
    List.reverse_reverse]
  rfl

theorem head_not_ws_of_trimLeft_fix {c : Char} {cs : List Char}
    (h : trimLeft (c :: cs) = c :: cs) : isRustWhitespace c = false := by
  by_contra hc
  rw [Bool.not_eq_false] at hc
  rw [trimLeft_cons_of_true cs hc] at h
  have hlen := congrArg List.length h
  have hle := trimLeft_length_le cs
  simp at hlen
  omega

theorem trimRight_prefix (l : List Char) : trimRight l <+: l := by
  obtain ⟨t, ht⟩ := List.dropWhile_suffix (l := l.reverse) isRustWhitespace
  refine ⟨t.reverse, ?_⟩
  have := congrArg List.reverse ht
  rw [List.reverse_append, List.reverse_reverse] at this
  rw [trimRight]
  exact this

theorem trimLeft_trimRight_of_fix {m : List Char} (hm : trimLeft m = m) :
    trimLeft (trimRight m) = trimRight m := by
  rcases hm' : trimRight m with _ | ⟨c, cs⟩
  · rfl
  · obtain ⟨rest, hrest⟩ := trimRight_prefix m
    rw [hm'] at hrest
    have hm2 : m = c :: (cs ++ rest) := by rw [← hrest]; rfl
    have hc : isRustWhitespace c = false := by
      rw [hm2] at hm
      exact head_not_ws_of_trimLeft_fix hm
    exact trimLeft_cons_of_false cs hc

theorem trimRight_idem (l : List Char) : trimRight (trimRight l) = trimRight l := by
  rw [trimRight, trimRight, List.reverse_reverse, dropWhile_dropWhile]

theorem rustTrim_idem (l : List Char) : rustTrim (rustTrim l) = rustTrim l := by
  have h1 : trimLeft (trimLeft l) = trimLeft l := dropWhile_dropWhile _ _
  show trimRight (trimLeft (trimRight (trimLeft l))) = trimRight (trimLeft l)
  rw [trimLeft_trimRight_of_fix h1, trimRight_idem]

/-! ### Claim C1 -/

/-- Claim C1: `Task::parse` behaves exactly as the spec describes it — a
single leading `-` is stripped (with trimming), then a single leading
`[ ]`/`[x]` marker fixes the status, and the example line
`-[x]   finish report   ` parses to text `finish report` with status Done. -/
theorem c1_parse_matches_spec :
    (∀ (i : Nat) (line : List Char), Task.parse i line = specParse i line) ∧
    Task.parse 7 "-[x]   finish report   ".data =
      { id := 7, text := "finish report".data, status := .Done } := by
  constructor
  · intro i line
    have htext : parseText line = specParseText line := by
      unfold parseText specParseText
      by_cases h : startsWith "-".data line = true
      · rw [if_pos h, if_pos h, removeFirstOcc_of_startsWith _ _ h]; rfl
      · rw [if_neg h, if_neg h]
    unfold Task.parse specParse
    rw [htext]
    by_cases h1 : startsWith "[ ]".data (specParseText line) = true
    · rw [if_pos h1, if_pos h1, removeFirstOcc_of_startsWith _ _ h1]; rfl
    · rw [if_neg h1, if_neg h1]
      by_cases h2 : startsWith "[x]".data (specParseText line) = true
      · rw [if_pos h2, if_pos h2, removeFirstOcc_of_startsWith _ _ h2]; rfl
      · rw [if_neg h2, if_neg h2]
  · decide

/-! ### Claim C4 -/

/-- Claim C4 (code bug): the hand-written `Ord for Status` is not reflexive
at `Todo` and `Other` — the wildcard arms make `Todo.cmp(Todo)` return
`Less` and `Other.cmp(Other)` return `Greater` instead of `Equal`, so the
comparison is not the claimed total order.  Only `Done` compares `Equal`
with itself; distinct statuses do follow `Todo < Done < Other`. -/
theorem c4_status_cmp_not_reflexive :
    statusCmp .Todo .Todo = .lt ∧ statusCmp .Other .Other = .gt ∧
    statusCmp .Done .Done = .eq ∧
    statusCmp .Todo .Done = .lt ∧ statusCmp .Todo .Other = .lt ∧
    statusCmp .Done .Other = .lt ∧ statusCmp .Done .Todo = .gt ∧
    statusCmp .Other .Todo = .gt ∧ statusCmp .Other .Done = .gt := by
  decide

/-! ### Claim C10 -/

/-- Claim C10 counterexample: when no local file exists and a configured
default path is present but is not a file, `get_path` fails with the message
`path does not lead to a valid file`, which names neither the missing
default location nor the absence of a configured default. -/
theorem c10_counterexample :
    get_path [] false (some "/tmp/f".data) false =
      .error "path does not lead to a valid file".data ∧
    containsSub "no default".data "path does not lead to a valid file".data = false ∧
    containsSub ".todo.md".data "path does not lead to a valid file".data = false := by
  refine ⟨rfl, by decide, by decide⟩

/-- Claim C10 (amended): `./.todo.md` is used when present; else a
configured default that exists is used; a configured default that does not
exist fails with `path does not lead to a valid file`; only when no default
is configured does resolution fail with the message naming the missing
`.todo.md` location and the absence of a configured default. -/
theorem c10_amended_path_resolution (cwd d : List Char)
    (df : Option (List Char)) (dex : Bool) :
    get_path cwd true df dex = .ok (cwd ++ "/.todo.md".data) ∧
    get_path cwd false (some d) true = .ok d ∧
    get_path cwd false (some d) false =
      .error "path does not lead to a valid file".data ∧
    get_path cwd false none dex =
      .error "file .todo.md not found in current directory and no default is set".data ∧
    containsSub ".todo.md".data
      "file .todo.md not found in current directory and no default is set".data = true ∧
    containsSub "no default is set".data
      "file .todo.md not found in current directory and no default is set".data = true :=
  ⟨rfl, rfl, rfl, rfl, by decide, by decide⟩

/-! ### Claim C2 -/

/-- Claim C2 counterexample: a Todo task whose text has leading whitespace
does not round-trip — parsing the serialized line loses the leading space of
the text, so re-serializing does not reproduce the original line. -/
theorem c2_counterexample :
    (Task.parse 1 (Task.to_file { id := 1, text := " a".data, status := .Todo })).text ≠
      " a".data ∧
    Task.to_file (Task.parse 1 (Task.to_file { id := 1, text := " a".data, status := .Todo })) ≠
      Task.to_file { id := 1, text := " a".data, status := .Todo } := by
  decide

/-! ### Claim C9 -/

/-- Claim C9 counterexample: a parsed task's text can contain the literal
marker `- [ ]` — parsing the line `x - [ ] y` keeps the marker inside the
stored text. -/
theorem c9_counterexample :
    containsSub "- [ ]".data (Task.parse 1 "x - [ ] y".data).text = true ∧
    (Task.parse 1 "x - [ ] y".data).status = .Other := by
  decide

/-! ### Claim C2, amended round-trip -/

theorem parseText_todo_file (T : List Char) (hTR : trimRight T = T)
    (hne : T ≠ []) : parseText ("- [ ] ".data ++ T) = "[ ] ".data ++ T := by
  have h0 : removeFirstOcc "-".data ("- [ ] ".data ++ T) = " [ ] ".data ++ T :=
    removeFirstOcc_of_startsWith _ _ rfl
  have h1 : trimLeft (" [ ] ".data ++ T) = "[ ] ".data ++ T := by
    show trimLeft (' ' :: ("[ ] ".data ++ T)) = "[ ] ".data ++ T
    rw [trimLeft_cons_of_true _ (by decide)]
    exact trimLeft_cons_of_false _ (by decide)
  have h2 : trimRight ("[ ] ".data ++ T) = "[ ] ".data ++ T := by
    rw [trimRight_append _ _ (by rw [hTR]; exact hne), hTR]
  unfold parseText
  rw [if_pos (show startsWith "-".data ("- [ ] ".data ++ T) = true from rfl),
    h0, rustTrim, h1, h2]

theorem parseText_done_file (T : List Char) (hTR : trimRight T = T)
    (hne : T ≠ []) : parseText ("- [x] ".data ++ T) = "[x] ".data ++ T := by
  have h0 : removeFirstOcc "-".data ("- [x] ".data ++ T) = " [x] ".data ++ T :=
    removeFirstOcc_of_startsWith _ _ rfl
  have h1 : trimLeft (" [x] ".data ++ T) = "[x] ".data ++ T := by
    show trimLeft (' ' :: ("[x] ".data ++ T)) = "[x] ".data ++ T
    rw [trimLeft_cons_of_true _ (by decide)]
    exact trimLeft_cons_of_false _ (by decide)
  have h2 : trimRight ("[x] ".data ++ T) = "[x] ".data ++ T := by
    rw [trimRight_append _ _ (by rw [hTR]; exact hne), hTR]
  unfold parseText
  rw [if_pos (show startsWith "-".data ("- [x] ".data ++ T) = true from rfl),
    h0, rustTrim, h1, h2]

theorem parse_todo_file (i : Nat) (T : List Char) (hTL : trimLeft T = T)
    (hTR : trimRight T = T) (hne : T ≠ []) :
    Task.parse i ("- [ ] ".data ++ T) = { id := i, text := T, status := .Todo } := by
  have hpt := parseText_todo_file T hTR hne
  have hrm : removeFirstOcc "[ ]".data ("[ ] ".data ++ T) = ' ' :: T :=
    removeFirstOcc_of_startsWith _ _ rfl
  have htrim : rustTrim (' ' :: T) = T := by
    rw [rustTrim, trimLeft_cons_of_true _ (by decide), hTL, hTR]
  unfold Task.parse
  rw [hpt, if_pos (show startsWith "[ ]".data ("[ ] ".data ++ T) = true from rfl),
    hrm, htrim]

theorem parse_done_file (i : Nat) (T : List Char) (hTL : trimLeft T = T)
    (hTR : trimRight T = T) (hne : T ≠ []) :
    Task.parse i ("- [x] ".data ++ T) = { id := i, text := T, status := .Done } := by
  have hpt := parseText_done_file T hTR hne
  have hrm : removeFirstOcc "[x]".data ("[x] ".data ++ T) = ' ' :: T :=
    removeFirstOcc_of_startsWith _ _ rfl
  have htrim : rustTrim (' ' :: T) = T := by
    rw [rustTrim, trimLeft_cons_of_true _ (by decide), hTL, hTR]
  unfold Task.parse
  rw [hpt,
    if_neg (show ¬startsWith "[ ]".data ("[x] ".data ++ T) = true by
      rw [show startsWith "[ ]".data ("[x] ".data ++ T) = false from rfl]
      exact Bool.false_ne_true),
    if_pos (show startsWith "[x]".data ("[x] ".data ++ T) = true from rfl),
    hrm, htrim]

/-- Claim C2 (amended): a Todo task serializes to `- [ ] <text>` and a Done
task to `- [x] <text>`, and for every Todo or Done task whose text carries
no leading or trailing whitespace (as holds for all parsed tasks), parsing
the serialized line at any id recovers the status and text, so
re-serializing reproduces the original line exactly.  Texts with
surrounding whitespace do not round-trip (see the counterexample). -/
theorem c2_roundtrip_trimmed (t : Task) (i : Nat)
    (hst : t.status = .Todo ∨ t.status = .Done)
    (htrim : rustTrim t.text = t.text) :
    Task.parse i (Task.to_file t) = { id := i, text := t.text, status := t.status } ∧
    Task.to_file (Task.parse i (Task.to_file t)) = Task.to_file t := by
  have hTL := trimLeft_eq_self_of_rustTrim htrim
  have hTR := trimRight_eq_self_of_rustTrim htrim
  have hmain : Task.parse i (Task.to_file t) =
      { id := i, text := t.text, status := t.status } := by
    rcases hst with hst | hst
    · have hfile : Task.to_file t = "- [ ] ".data ++ t.text := by
        unfold Task.to_file; rw [hst]
      rcases hT : t.text with _ | ⟨c, cs⟩
      · rw [hfile, hT, hst]; rfl
      · rw [hfile, hst, ← hT]
        exact parse_todo_file i t.text hTL hTR (by rw [hT]; simp)
    · have hfile : Task.to_file t = "- [x] ".data ++ t.text := by
        unfold Task.to_file; rw [hst]
      rcases hT : t.text with _ | ⟨c, cs⟩
      · rw [hfile, hT, hst]; rfl
      · rw [hfile, hst, ← hT]
        exact parse_done_file i t.text hTL hTR (by rw [hT]; simp)
  refine ⟨hmain, ?_⟩
  rw [hmain]
  rfl

/-- Claim C2 witness: round-trip of the serialized Todo task `buy milk`. -/
theorem c2_roundtrip_trimmed_witness :
    Task.parse 4 (Task.to_file { id := 9, text := "buy milk".data, status := .Todo }) =
      { id := 4, text := "buy milk".data, status := .Todo } ∧
    Task.to_file
        (Task.parse 4 (Task.to_file { id := 9, text := "buy milk".data, status := .Todo })) =
      Task.to_file { id := 9, text := "buy milk".data, status := .Todo } :=
  c2_roundtrip_trimmed { id := 9, text := "buy milk".data, status := .Todo } 4
    (Or.inl rfl) (by decide)

/-! ### Claim C3, the sort contract -/

theorem statusRank_inj : ∀ s u : Status, s = u ↔ statusRank s = statusRank u := by
  intro s u
  cases s <;> cases u <;> simp [statusRank]

theorem beq_lt_gt : (Ordering.lt == Ordering.gt) = false := rfl

theorem beq_eq_gt : (Ordering.eq == Ordering.gt) = false := rfl

theorem beq_gt_gt : (Ordering.gt == Ordering.gt) = true := rfl

theorem not_gt_iff_le (i j : Nat) :
    (!(compare i j == Ordering.gt)) = true ↔ i ≤ j := by
  rcases hc : compare i j with _ | _ | _
  · have h := Nat.compare_eq_lt.mp hc
    exact ⟨fun _ => Nat.le_of_lt h, fun _ => rfl⟩
  · have h := Nat.compare_eq_eq.mp hc
    exact ⟨fun _ => Nat.le_of_eq h, fun _ => rfl⟩
  · have h := Nat.compare_eq_gt.mp hc
    constructor
    · intro hh; cases hh
    · intro hh; exact absurd hh (Nat.not_le.mpr h)

theorem gt_eq_false_iff_le (i j : Nat) :
    (compare i j == Ordering.gt) = false ↔ i ≤ j := by
  rw [← not_gt_iff_le i j, Bool.not_eq_true']

theorem taskLe_iff (a b : Task) :
    taskLe a b = true ↔
      statusRank a.status < statusRank b.status ∨
        (a.status = b.status ∧ a.id ≤ b.id) := by
  rcases a with ⟨ia, ta, sa⟩
  rcases b with ⟨ib, tb, sb⟩
  cases sa <;> cases sb <;>
    simp [taskLe, taskCmp, statusEq, statusCmp, statusRank, not_gt_iff_le,
      gt_eq_false_iff_le, beq_lt_gt, beq_eq_gt, beq_gt_gt]

theorem taskLe_trans :
    ∀ a b c : Task, taskLe a b = true → taskLe b c = true → taskLe a c = true := by
  intro a b c hab hbc
  rw [taskLe_iff] at hab hbc ⊢
  simp only [statusRank_inj] at hab hbc ⊢
  omega

theorem taskLe_total : ∀ a b : Task, (taskLe a b || taskLe b a) = true := by
  intro a b
  rw [Bool.or_eq_true, taskLe_iff, taskLe_iff]
  simp only [statusRank_inj]
  omega

theorem taskLe_of_cmp_eq {a b : Task} (h : taskCmp a b = Ordering.eq) :
    taskLe a b = true := by
  simp [taskLe, h, beq_eq_gt]

/-- Claim C3: after `Tasks::sort`, adjacent tasks are ordered by status
rank (`Todo < Done < Other`) and by ascending id within equal status, the
multiset of tasks is unchanged (the result is a permutation), and the sort
is stable: any subsequence of pairwise `Ordering::Equal` tasks keeps its
relative order. -/
theorem c3_sort_order (ts : List Task) :
    (Tasks.sort ts).Perm ts ∧
    List.Chain'
      (fun a b =>
        statusRank a.status ≤ statusRank b.status ∧
          (a.status = b.status → a.id ≤ b.id)) (Tasks.sort ts) ∧
    ∀ c : List Task,
      c.Pairwise (fun a b => taskCmp a b = Ordering.eq) → c.Sublist ts →
        c.Sublist (Tasks.sort ts) := by
  refine ⟨List.mergeSort_perm ts taskLe, ?_, ?_⟩
  · have hs := List.sorted_mergeSort taskLe_trans taskLe_total ts
    refine (hs.imp ?_).chain'
    intro a b h
    rw [taskLe_iff] at h
    constructor
    · rcases h with h | ⟨heq, _⟩
      · exact Nat.le_of_lt h
      · exact Nat.le_of_eq (congrArg statusRank heq)
    · intro hst
      rcases h with h | ⟨_, hid⟩
      · rw [(statusRank_inj _ _).mp hst] at h
        omega
      · exact hid
  · intro c hpw hsub
    exact List.sublist_mergeSort taskLe_trans taskLe_total
      (hpw.imp fun h => taskLe_of_cmp_eq h) hsub

/-- Claim C3 witness: sorting a concrete collection that contains two tasks
comparing `Ordering::Equal` (same status and id, different text). -/
theorem c3_sort_order_witness :
    (Tasks.sort
        [{ id := 1, text := "x".data, status := .Done },
         { id := 1, text := "y".data, status := .Done },
         { id := 0, text := "z".data, status := .Todo }]).Perm
      [{ id := 1, text := "x".data, status := .Done },
       { id := 1, text := "y".data, status := .Done },
       { id := 0, text := "z".data, status := .Todo }] ∧
    List.Chain'
      (fun a b =>
        statusRank a.status ≤ statusRank b.status ∧
          (a.status = b.status → a.id ≤ b.id))
      (Tasks.sort
        [{ id := 1, text := "x".data, status := .Done },
         { id := 1, text := "y".data, status := .Done },
         { id := 0, text := "z".data, status := .Todo }]) ∧
    List.Sublist
      [{ id := 1, text := "x".data, status := .Done },
       { id := 1, text := "y".data, status := .Done }]
      (Tasks.sort
        [{ id := 1, text := "x".data, status := .Done },
         { id := 1, text := "y".data, status := .Done },
         { id := 0, text := "z".data, status := .Todo }]) := by
  obtain ⟨h1, h2, h3⟩ := c3_sort_order
    [{ id := 1, text := "x".data, status := .Done },
     { id := 1, text := "y".data, status := .Done },
     { id := 0, text := "z".data, status := .Todo }]
  exact ⟨h1, h2, h3 _ (by decide) (by decide)⟩

/-! ### Claim C5, fresh parse ids -/

theorem parse_id_eq (i : Nat) (l : List Char) : (Task.parse i l).id = i := by
  unfold Task.parse
  split_ifs <;> rfl

theorem newFrom_length (k : Nat) (ls : List (List Char)) :
    (Tasks.newFrom k ls).length = ls.length := by
  induction ls generalizing k with
  | nil => rfl
  | cons l ls ih => simp [Tasks.newFrom, ih]

theorem newFrom_map_id (k : Nat) (ls : List (List Char)) :
    (Tasks.newFrom k ls).map Task.id = List.range' (k + 1) ls.length := by
  induction ls generalizing k with
  | nil => rfl
  | cons l ls ih =>
    simp only [Tasks.newFrom, List.map_cons, parse_id_eq, List.length_cons,
      List.range'_succ, ih]

theorem newFrom_getElem (k j : Nat) (ls : List (List Char)) (l : List Char)
    (h : ls[j]? = some l) :
    (Tasks.newFrom k ls)[j]? = some (Task.parse (k + j + 1) l) := by
  induction ls generalizing k j with
  | nil => simp at h
  | cons x xs ih =>
    cases j with
    | zero =>
      rw [List.getElem?_cons_zero] at h
      cases h
      simp [Tasks.newFrom]
    | succ j =>
      rw [List.getElem?_cons_succ] at h
      have := ih (k + 1) j h
      rw [show k + 1 + j + 1 = k + (j + 1) + 1 by omega] at this
      simpa [Tasks.newFrom] using this

/-- Claim C5: a fresh collection built from N lines has exactly N tasks, one
per line in file order, the task from line k (1-based) has id k, and the ids
are exactly 1..N — unique and positive. -/
theorem c5_fresh_ids (lines : List (List Char)) :
    (Tasks.new lines).length = lines.length ∧
    (Tasks.new lines).map Task.id = List.range' 1 lines.length ∧
    ((Tasks.new lines).map Task.id).Nodup ∧
    (∀ t ∈ Tasks.new lines, 0 < t.id) ∧
    ∀ (k : Nat) (l : List Char), lines[k]? = some l →
      (Tasks.new lines)[k]? = some (Task.parse (k + 1) l) := by
  refine ⟨newFrom_length 0 lines, newFrom_map_id 0 lines, ?_, ?_, ?_⟩
  · rw [show (Tasks.new lines).map Task.id = List.range' 1 lines.length from
      newFrom_map_id 0 lines]
    exact List.nodup_range' 1 lines.length
  · intro t ht
    have hmem : t.id ∈ (Tasks.new lines).map Task.id := List.mem_map_of_mem _ ht
    rw [show (Tasks.new lines).map Task.id = List.range' 1 lines.length from
      newFrom_map_id 0 lines] at hmem
    have := List.mem_range'_1.mp hmem
    omega
  · intro k l h
    have := newFrom_getElem 0 k lines l h
    simpa using this

/-- Claim C5 witness: the three-line example file parses to tasks with ids
1, 2, 3 and line 2 yields the task parsed at id 2. -/
theorem c5_fresh_ids_witness :
    (Tasks.new ["- [ ] buy milk".data, "- [x] pay bills".data, "random note".data]).length = 3 ∧
    (Tasks.new ["- [ ] buy milk".data, "- [x] pay bills".data, "random note".data]).map
        Task.id = List.range' 1 3 ∧
    (Tasks.new ["- [ ] buy milk".data, "- [x] pay bills".data,
        "random note".data])[1]? = some (Task.parse 2 "- [x] pay bills".data) := by
  obtain ⟨h1, h2, _, _, h5⟩ :=
    c5_fresh_ids ["- [ ] buy milk".data, "- [x] pay bills".data, "random note".data]
  exact ⟨h1, h2, h5 1 "- [x] pay bills".data rfl⟩

/-! ### Claim C6, delete by id -/

theorem delete_id_cons_ne (t : Task) (ts : List Task) (i : Nat)
    (h : ¬t.id = i) :
    Tasks.delete_id (t :: ts) i =
      ((Tasks.delete_id ts i).1, t :: (Tasks.delete_id ts i).2) := by
  have hcons : Tasks.index_of (t :: ts) i = (Tasks.index_of ts i).map (· + 1) := by
    simp only [Tasks.index_of, if_neg h]
  cases hio : Tasks.index_of ts i with
  | none => simp [Tasks.delete_id, hcons, hio]
  | some k =>
    simp [Tasks.delete_id, hcons, hio, List.getElem?_cons_succ,
      List.eraseIdx_cons_succ]

/-- Claim C6: `delete_id` on a present id removes exactly the first task (in
collection order) whose id matches and returns it, leaving all other tasks
unchanged in their relative order; on an absent id it returns nothing and
leaves the collection untouched. -/
theorem c6_delete_id (ts : List Task) (i : Nat) :
    ((∀ t ∈ ts, t.id ≠ i) → Tasks.delete_id ts i = (none, ts)) ∧
    ((∃ t ∈ ts, t.id = i) →
      ∃ l1 t l2, ts = l1 ++ t :: l2 ∧ (∀ u ∈ l1, u.id ≠ i) ∧ t.id = i ∧
        Tasks.delete_id ts i = (some t, l1 ++ l2)) := by
  induction ts with
  | nil => exact ⟨fun _ => rfl, fun h => by simp at h⟩
  | cons t ts ih =>
    constructor
    · intro h
      have ht : t.id ≠ i := h t (by simp)
      rw [delete_id_cons_ne t ts i ht, ih.1 fun u hu => h u (by simp [hu])]
    · intro h
      by_cases ht : t.id = i
      · refine ⟨[], t, ts, rfl, by simp, ht, ?_⟩
        have hcons : Tasks.index_of (t :: ts) i = some 0 := by
          simp only [Tasks.index_of, if_pos ht]
        simp [Tasks.delete_id, hcons]
      · have h' : ∃ u ∈ ts, u.id = i := by
          rcases h with ⟨u, hu, hui⟩
          rcases List.mem_cons.mp hu with rfl | hu'
          · exact absurd hui ht
          · exact ⟨u, hu', hui⟩
        obtain ⟨l1, u, l2, heq, hl1, hui, hdel⟩ := ih.2 h'
        refine ⟨t :: l1, u, l2, by rw [heq]; rfl, ?_, hui, ?_⟩
        · intro v hv
          rcases List.mem_cons.mp hv with rfl | hv'
          · exact ht
          · exact hl1 v hv'
        · rw [delete_id_cons_ne t ts i ht, hdel]
          rfl

/-- Claim C6 witness: deleting id 2 from the parsed three-line collection
removes exactly that task; deleting the absent id 9 is a no-op. -/
theorem c6_delete_id_witness :
    Tasks.delete_id (Tasks.new ["a".data, "b".data, "c".data]) 9 =
      (none, Tasks.new ["a".data, "b".data, "c".data]) ∧
    ∃ l1 t l2, Tasks.new ["a".data, "b".data, "c".data] = l1 ++ t :: l2 ∧
      (∀ u ∈ l1, u.id ≠ 2) ∧ t.id = 2 ∧
      Tasks.delete_id (Tasks.new ["a".data, "b".data, "c".data]) 2 =
        (some t, l1 ++ l2) :=
  ⟨(c6_delete_id (Tasks.new ["a".data, "b".data, "c".data]) 9).1 (by decide),
   (c6_delete_id (Tasks.new ["a".data, "b".data, "c".data]) 2).2 (by decide)⟩

/-! ### Claim C7, ids assigned by add -/

/-- Claim C7: every task built by `Task::from_user` from a non-aborted,
non-empty entry is a Todo task with the entered text and id `len + 2` (the
collection length at the time of the add, plus two), appended at the end of
the collection by the add loop; adding two entries to a 3-task collection
assigns ids 5 and 6. -/
theorem c7_add_ids :
    (∀ (len : Nat) (ab : Bool) (q : List Char) (t : Task),
        Task.from_user len ab q = some t →
          t.status = .Todo ∧ t.text = q ∧ t.id = len + 2) ∧
    (∀ (ts : List Task) (q : List Char) (rest : List (Bool × List Char)),
        q ≠ [] →
          user_add_loop ts ((false, q) :: rest) =
            user_add_loop
              (ts ++ [{ id := ts.length + 2, text := q, status := .Todo }]) rest) ∧
    (user_add_loop (Tasks.new ["a".data, "b".data, "c".data])
        [(false, "alpha".data), (false, "beta".data)]).map Task.id =
      [1, 2, 3, 5, 6] := by
  refine ⟨?_, ?_, by decide⟩
  · intro len ab q t h
    unfold Task.from_user at h
    by_cases hc : (!ab && !q.isEmpty) = true
    · rw [if_pos hc] at h
      injection h with h2
      subst h2
      exact ⟨rfl, rfl, rfl⟩
    · rw [if_neg hc] at h
      cases h
  · intro ts q rest hq
    show (match Task.from_user ts.length false q with
      | some t => user_add_loop (ts ++ [t]) rest
      | none => ts) = _
    rw [show Task.from_user ts.length false q =
        some { id := ts.length + 2, text := q, status := .Todo } by
      unfold Task.from_user
      rw [if_pos]
      simp [List.isEmpty_eq_false, hq]]

/-- Claim C7 witness: two concrete non-empty entries added to the parsed
three-task collection. -/
theorem c7_add_ids_witness :
    (({ id := 5, text := "alpha".data, status := .Todo } : Task).status = .Todo ∧
      ({ id := 5, text := "alpha".data, status := .Todo } : Task).text = "alpha".data ∧
      ({ id := 5, text := "alpha".data, status := .Todo } : Task).id = 3 + 2) ∧
    user_add_loop (Tasks.new ["a".data, "b".data, "c".data])
        [(false, "alpha".data)] =
      user_add_loop
        (Tasks.new ["a".data, "b".data, "c".data] ++
          [{ id := (Tasks.new ["a".data, "b".data, "c".data]).length + 2,
             text := "alpha".data, status := .Todo }]) [] :=
  ⟨c7_add_ids.1 3 false "alpha".data
      { id := 5, text := "alpha".data, status := .Todo } (by decide),
   c7_add_ids.2.1 (Tasks.new ["a".data, "b".data, "c".data]) "alpha".data []
      (by decide)⟩

/-! ### Claim C8, id extraction from the rendered line -/

theorem digitChar_facts :
    ∀ r < 10, Char.isDigit (Nat.digitChar r) = true ∧
      isRustWhitespace (Nat.digitChar r) = false ∧ Nat.digitChar r ≠ '+' ∧
      (Nat.digitChar r).toNat = 48 + r := by
  decide

theorem natDigitsRev_facts (n : Nat) :
    ∀ c ∈ natDigitsRev n, Char.isDigit c = true ∧
      isRustWhitespace c = false ∧ c ≠ '+' := by
  induction n using Nat.strong_induction_on with
  | _ n ih =>
    cases n with
    | zero => intro c hc; simp [natDigitsRev] at hc
    | succ m =>
      intro c hc
      rw [natDigitsRev] at hc
      rcases List.mem_cons.mp hc with rfl | hc'
      · have h := digitChar_facts ((m + 1) % 10) (Nat.mod_lt _ (by decide))
        exact ⟨h.1, h.2.1, h.2.2.1⟩
      · exact ih ((m + 1) / 10) (Nat.div_lt_self (Nat.succ_pos m) (by decide)) c hc'

theorem natDigitsRev_foldr (n : Nat) :
    ∀ i : Nat,
      (natDigitsRev n).foldr (fun c a => a * 10 + (c.toNat - 48)) i =
        i * 10 ^ (natDigitsRev n).length + n := by
  induction n using Nat.strong_induction_on with
  | _ n ih =>
    cases n with
    | zero => intro i; simp [natDigitsRev]
    | succ m =>
      intro i
      rw [natDigitsRev]
      simp only [List.foldr_cons, List.length_cons]
      rw [ih ((m + 1) / 10) (Nat.div_lt_self (Nat.succ_pos m) (by decide)) i]
      rw [(digitChar_facts ((m + 1) % 10) (Nat.mod_lt _ (by decide))).2.2.2]
      have hdm : 10 * ((m + 1) / 10) + (m + 1) % 10 = m + 1 :=
        Nat.div_add_mod (m + 1) 10
      have hpow : (10 : Nat) ^ ((natDigitsRev ((m + 1) / 10)).length + 1) =
          10 ^ (natDigitsRev ((m + 1) / 10)).length * 10 := pow_succ 10 _
      rw [hpow]
      generalize (10 : Nat) ^ (natDigitsRev ((m + 1) / 10)).length = p
      calc (i * p + (m + 1) / 10) * 10 + (48 + (m + 1) % 10 - 48)
          = i * (p * 10) + (10 * ((m + 1) / 10) + (m + 1) % 10) := by ring_nf; omega
        _ = i * (p * 10) + (m + 1) := by rw [hdm]

theorem natDigits_facts (n : Nat) :
    ∀ c ∈ natDigits n, Char.isDigit c = true ∧
      isRustWhitespace c = false ∧ c ≠ '+' := by
  intro c hc
  by_cases h0 : n = 0
  · subst h0
    rw [show natDigits 0 = ['0'] from rfl] at hc
    rcases List.mem_cons.mp hc with rfl | hc'
    · exact ⟨by decide, by decide, by decide⟩
    · simp at hc'
  · rw [natDigits, if_neg h0] at hc
    exact natDigitsRev_facts n c (List.mem_reverse.mp hc)

theorem natDigits_ne_nil (n : Nat) : natDigits n ≠ [] := by
  by_cases h0 : n = 0
  · subst h0; decide
  · rw [natDigits, if_neg h0]
    cases hn : n with
    | zero => exact absurd hn h0
    | succ m =>
      rw [natDigitsRev]
      simp

theorem natDigits_val (n : Nat) :
    (natDigits n).foldl (fun a c => a * 10 + (c.toNat - 48)) 0 = n := by
  by_cases h0 : n = 0
  · subst h0; rfl
  · rw [natDigits, if_neg h0, List.foldl_reverse]
    have h := natDigitsRev_foldr n 0
    simpa using h

theorem parseUsize_all_digits (l : List Char) (hne : l ≠ [])
    (hall : ∀ c ∈ l, Char.isDigit c = true ∧ c ≠ '+') :
    parseUsize l = some (l.foldl (fun a c => a * 10 + (c.toNat - 48)) 0) := by
  rcases l with _ | ⟨c, cs⟩
  · exact absurd rfl hne
  · unfold parseUsize
    split
    next rest heq =>
      exfalso
      apply (hall c (by simp)).2
      injection heq with h1 h2
    next hne2 =>
      have hall2 : (c :: cs).all Char.isDigit = true :=
        List.all_eq_true.mpr fun x hx => (hall x hx).1
      rw [if_neg (by simp [hall2])]

theorem parseUsize_natDigits (n : Nat) : parseUsize (natDigits n) = some n := by
  rw [parseUsize_all_digits (natDigits n) (natDigits_ne_nil n)
    (fun c hc => ⟨(natDigits_facts n c hc).1, (natDigits_facts n c hc).2.2⟩),
    natDigits_val]

theorem dropWhile_replicate_space (k : Nat) (l : List Char) :
    List.dropWhile isRustWhitespace (List.replicate k ' ' ++ l) =
      List.dropWhile isRustWhitespace l := by
  induction k with
  | zero => rfl
  | succ k ih =>
    rw [List.replicate_succ, List.cons_append, List.dropWhile_cons,
      if_pos (show isRustWhitespace ' ' = true from rfl)]
    exact ih

theorem takeWhile_stops (D : List Char) (x : Char) (s : List Char)
    (hD : ∀ c ∈ D, isRustWhitespace c = false)
    (hx : isRustWhitespace x = true) :
    List.takeWhile (fun c => !isRustWhitespace c) (D ++ x :: s) = D := by
  induction D with
  | nil =>
    rw [List.nil_append, List.takeWhile_cons, if_neg (by simp [hx])]
  | cons c cs ih =>
    rw [List.cons_append, List.takeWhile_cons,
      if_pos (by simp [hD c (by simp)])]
    rw [ih fun u hu => hD u (by simp [hu])]

theorem token_of_padded (n : Nat) (tail : List Char) :
    nextToken (rustTrim (padTo5 (natDigits n) ++ (' ' :: '|' :: tail))) =
      some (natDigits n) := by
  obtain ⟨c, cs, hD⟩ : ∃ c cs, natDigits n = c :: cs := by
    rcases h : natDigits n with _ | ⟨c, cs⟩
    · exact absurd h (natDigits_ne_nil n)
    · exact ⟨c, cs, rfl⟩
  have hDfacts := natDigits_facts n
  have hc : isRustWhitespace c = false := (hDfacts c (by rw [hD]; simp)).2.1
  have h1 : trimLeft (padTo5 (natDigits n) ++ (' ' :: '|' :: tail)) =
      natDigits n ++ (' ' :: '|' :: tail) := by
    rw [padTo5, trimLeft, List.append_assoc, dropWhile_replicate_space, hD,
      List.cons_append, List.dropWhile_cons, if_neg (by simp [hc])]
  have hbar : trimRight ('|' :: tail) ≠ [] :=
    trimRight_ne_nil ⟨'|', by simp, by decide⟩
  have h2 : trimRight (natDigits n ++ (' ' :: '|' :: tail)) =
      natDigits n ++ (' ' :: trimRight ('|' :: tail)) := by
    have hrest : trimRight (' ' :: '|' :: tail) =
        ' ' :: trimRight ('|' :: tail) := by
      have := trimRight_append [' '] ('|' :: tail) hbar
      simpa using this
    have hrest_ne : trimRight (' ' :: '|' :: tail) ≠ [] := by
      rw [hrest]; simp
    rw [trimRight_append _ _ hrest_ne, hrest]
  have h3 : List.dropWhile isRustWhitespace
      (natDigits n ++ (' ' :: trimRight ('|' :: tail))) =
      natDigits n ++ (' ' :: trimRight ('|' :: tail)) := by
    rw [hD, List.cons_append, List.dropWhile_cons, if_neg (by simp [hc]),
      ← List.cons_append, ← hD]
  have hemp : ¬((natDigits n ++ (' ' :: trimRight ('|' :: tail))).isEmpty = true) := by
    simp [List.isEmpty_iff]
  rw [rustTrim, h1, h2]
  simp only [nextToken]
  rw [h3, takeWhile_stops (natDigits n) ' ' (trimRight ('|' :: tail))
    (fun u hu => (hDfacts u hu).2.1) rfl, if_neg hemp]

theorem display_shape (t : Task) :
    ∃ tail, Task.display t = padTo5 (natDigits t.id) ++ (' ' :: '|' :: tail) := by
  rcases t with ⟨i, tx, s⟩
  cases s with
  | Todo =>
    refine ⟨' ' :: (ansiWrap "31".data "✕".data ++ ' ' :: tx), ?_⟩
    show padTo5 (natDigits i) ++ " | ".data ++ ansiWrap "31".data "✕".data ++
        " ".data ++ tx = _
    simp only [List.append_assoc]
    rfl
  | Done =>
    refine ⟨' ' :: (ansiWrap "32".data "✓".data ++ ' ' :: tx), ?_⟩
    show padTo5 (natDigits i) ++ " | ".data ++ ansiWrap "32".data "✓".data ++
        " ".data ++ tx = _
    simp only [List.append_assoc]
    rfl
  | Other =>
    refine ⟨' ' :: tx, ?_⟩
    show padTo5 (natDigits i) ++ " | ".data ++ tx = _
    simp only [List.append_assoc]
    rfl

/-- Claim C8: for every task, the first whitespace-delimited token of the
rendered display line is exactly the task's decimal id digits, and
`Task::parse_id` applied to the rendered line recovers exactly the task's
id. -/
theorem c8_parse_id_display (t : Task) :
    nextToken (rustTrim (Task.display t)) = some (natDigits t.id) ∧
    Task.parse_id (Task.display t) = some t.id := by
  obtain ⟨tail, hd⟩ := display_shape t
  rw [hd]
  refine ⟨token_of_padded t.id tail, ?_⟩
  unfold Task.parse_id
  rw [token_of_padded t.id tail]
  exact parseUsize_natDigits t.id

/-! ### Claim C9, amended text invariants -/

theorem parse_text_trimmed (i : Nat) (line : List Char) :
    rustTrim (Task.parse i line).text = (Task.parse i line).text := by
  have hpt : rustTrim (parseText line) = parseText line := by
    unfold parseText
    split_ifs <;> exact rustTrim_idem _
  unfold Task.parse
  split_ifs <;> first | exact rustTrim_idem _ | exact hpt

theorem set_text_mem (ts : List Task) (i : Nat) (ab : Bool) (q : List Char) :
    ∀ t ∈ Tasks.set_text ts i ab q, t ∈ ts ∨ t.text = q := by
  induction ts with
  | nil => intro t ht; simp [Tasks.set_text] at ht
  | cons u us ih =>
    intro t ht
    by_cases hu : u.id = i
    · rw [show Tasks.set_text (u :: us) i ab q =
          (if !ab && !q.isEmpty then { u with text := q } else u) :: us by
        simp [Tasks.set_text, hu]] at ht
      rcases List.mem_cons.mp ht with rfl | ht'
      · by_cases hc : (!ab && !q.isEmpty) = true
        · rw [if_pos hc]
          exact Or.inr rfl
        · rw [if_neg hc]
          exact Or.inl (by simp)
      · exact Or.inl (by simp [ht'])
    · rw [show Tasks.set_text (u :: us) i ab q = u :: Tasks.set_text us i ab q by
        simp [Tasks.set_text, hu]] at ht
      rcases List.mem_cons.mp ht with rfl | ht'
      · exact Or.inl (by simp)
      · rcases ih t ht' with h | h
        · exact Or.inl (by simp [h])
        · exact Or.inr h

/-- Claim C9 (amended): parsing strips the bullet and at most one leading
status marker and trims, so every parsed task's text is whitespace-trimmed
(trimming it again changes nothing); but the text can still contain the
literal markers `- [ ]`/`- [x]` (see the counterexample), and tasks created
by free-text entry (`add`) or text replacement (`modify`) store the entered
text verbatim, markers included. -/
theorem c9_amended_text_invariants :
    (∀ (i : Nat) (line : List Char),
        rustTrim (Task.parse i line).text = (Task.parse i line).text) ∧
    (∀ (len : Nat) (ab : Bool) (q : List Char) (t : Task),
        Task.from_user len ab q = some t → t.text = q) ∧
    (∀ (ts : List Task) (i : Nat) (ab : Bool) (q : List Char),
        ∀ t ∈ Tasks.set_text ts i ab q, t ∈ ts ∨ t.text = q) := by
  refine ⟨parse_text_trimmed, ?_, set_text_mem⟩
  intro len ab q t h
  unfold Task.from_user at h
  by_cases hc : (!ab && !q.isEmpty) = true
  · rw [if_pos hc] at h
    injection h with h2
    subst h2
    rfl
  · rw [if_neg hc] at h
    cases h

/-- Claim C9 witness: concrete instances of the three amended invariants. -/
theorem c9_amended_text_invariants_witness :
    rustTrim (Task.parse 1 "- [ ]  milk  ".data).text =
      (Task.parse 1 "- [ ]  milk  ".data).text ∧
    ({ id := 5, text := "note".data, status := .Todo } : Task).text = "note".data ∧
    (Task.parse 1 "a".data ∈ [Task.parse 1 "a".data] ∨
      (Task.parse 1 "a".data).text = "zz".data) :=
  ⟨c9_amended_text_invariants.1 1 "- [ ]  milk  ".data,
   c9_amended_text_invariants.2.1 3 false "note".data
     { id := 5, text := "note".data, status := .Todo } (by decide),
   c9_amended_text_invariants.2.2 [Task.parse 1 "a".data] 9 false "zz".data
     (Task.parse 1 "a".data) (by decide)⟩

end Tdo
